import Mathlib

/-!
Shallow embedding of the `drive_backup` repository (Rust) used to check the
natural-language specification against the code.

Conventions of the embedding:
* Rust `i64` / `i32` values are modelled as `Int` (no arithmetic here ever
  nears the 64-bit range, and none of the verified claims concerns overflow).
* `chrono::NaiveDateTime` timestamps are modelled as `Int` (a totally ordered
  time axis; only comparisons and equality of timestamps are ever used).
* The sqlite store behind `history_service/data_layer.rs` is modelled as an
  explicit in-memory `Store` value; each `DataLayer` trait method becomes a
  pure function on `Store` (queries) or `Store → Store` (mutations), translated
  from the SQL each method executes.
* `.unwrap()` panics on `Option`s that the surrounding code guarantees to be
  `Some` are modelled either by an `Option` result (`none` = panic) or by a
  dead `match` arm, each marked by a comment.
* Async execution: every verified claim concerns the sequential semantics of a
  single call chain (the spec itself mandates single-writer discipline for the
  history service), so `async fn`s are embedded as ordinary functions.
-/

namespace DriveBackup

/-! ## Data model (src/history_service/models.rs and the files/dirs tables) -/

/-- Mirror of `DirModel` in src/history_service/models.rs (a row of `dirs`). -/
structure DirModel where
  id : Int
  parent_dir_id : Option Int
  dir_name : String
deriving Repr, DecidableEq

/-- Mirror of one row of the `files` table.  `FileModel` in models.rs carries
`version, id, file_name, backup_ts, hsh`; the table row additionally has the
`dir_id` column every query filters on, so the embedding keeps it. -/
structure FileRow where
  version : Int
  dir_id : Int
  id : Int
  file_name : String
  backup_ts : Int
  hsh : Option String
deriving Repr, DecidableEq

/-- The `(parent_id, name)` identity of a directory node, as used by the
spec's directory-uniqueness invariant (invariant 3 / claim C8). -/
def dirKey (x : DirModel) : Option Int × String := (x.parent_dir_id, x.dir_name)

/-- The sqlite database state: the `dirs` and `files` tables, in insertion
order (sqlite returns rows of these unindexed queries in rowid order). -/
structure Store where
  dirs : List DirModel
  files : List FileRow
deriving Repr, DecidableEq

/-- `const VERSION: i32 = 1` in src/history_service/data_layer.rs. -/
def VERSION : Int := 1

namespace DataLayer

/-- `get_max_file_id`: `SELECT MAX(id) as max_id FROM files`, `unwrap_or(0)`
when the table is empty (the aggregate is NULL). -/
def get_max_file_id (s : Store) : Int :=
  match s.files with
  | [] => 0
  | f :: fs => fs.foldl (fun a g => max a g.id) f.id

/-- `get_dir`: `SELECT ... FROM dirs WHERE dir_name = ?`, `fetch_optional`
(first matching row). -/
def get_dir (s : Store) (dir_name : String) : Option DirModel :=
  s.dirs.find? (fun d => d.dir_name = dir_name)

/-- `get_sub_dirs`: `SELECT ... FROM dirs WHERE parent_dir_id = ?`
(a NULL `parent_dir_id` never matches). -/
def get_sub_dirs (s : Store) (dir_id : Int) : List DirModel :=
  s.dirs.filter (fun d => d.parent_dir_id = some dir_id)

/-- Rows of `files` with the given `dir_id` and `file_name`
(`get_dir_files`: `SELECT ... FROM files WHERE dir_id = ? AND file_name = ?`). -/
def get_dir_files (s : Store) (dir_id : Int) (file_name : String) : List FileRow :=
  s.files.filter (fun f => f.dir_id = dir_id ∧ f.file_name = file_name)

/-- First row attaining the maximum `backup_ts` (the row `ORDER BY backup_ts
DESC LIMIT 1` returns, and the row whose `id` the bare-column
`SELECT id, MAX(backup_ts)` query of `update_latest_hsh_ts` yields). -/
def firstMaxByTs : List FileRow → Option FileRow
  | [] => none
  | x :: xs => some (xs.foldl (fun a f => if f.backup_ts > a.backup_ts then f else a) x)

/-- `get_latest_file`: latest row for `(dir_id, file_name)`. -/
def get_latest_file (s : Store) (dir_id : Int) (file_name : String) : Option FileRow :=
  firstMaxByTs (get_dir_files s dir_id file_name)

/-- `create_dir`: `INSERT INTO dirs (parent_dir_id, dir_name) VALUES (?, ?)`,
returning `last_insert_rowid()`.  sqlite assigns the fresh rowid
`max(existing rowid) + 1`; the claims never depend on the numeric value. -/
def maxDirId (s : Store) : Int :=
  s.dirs.foldl (fun a d => max a d.id) 0

/-- See `maxDirId`; returns the new id and the grown store. -/
def create_dir (s : Store) (dir_name : String) (parent_dir_id : Option Int) :
    Int × Store :=
  let nid := maxDirId s + 1
  (nid, { s with dirs := s.dirs ++ [⟨nid, parent_dir_id, dir_name⟩] })

/-- `create_file_entry` (data layer): `INSERT INTO files (version, dir_id, id,
file_name, backup_ts, hsh) VALUES (?, ?, ?, ?, ?, ?)`. -/
def create_file_entry (s : Store) (dir_id file_id : Int) (file_name file_hsh : String)
    (ts : Int) : Store :=
  { s with files := s.files ++ [⟨VERSION, dir_id, file_id, file_name, ts, some file_hsh⟩] }

/-- `update_latest_hsh_ts`: `SELECT id, MAX(backup_ts) ... WHERE dir_id = ? and
file_name = ?` picks the id of a row attaining the maximal `backup_ts`, then
`UPDATE files SET backup_ts = ? WHERE id = ?`.  The `none` arm models the
`.unwrap()` panic when no row matches (never reached by the service: it only
calls this after `get_latest_file` returned a row). -/
def update_latest_hsh_ts (s : Store) (dir_id : Int) (file_name : String) (ts : Int) :
    Store :=
  match firstMaxByTs (get_dir_files s dir_id file_name) with
  | none => s
  | some r =>
      { s with files := s.files.map (fun f => if f.id = r.id then { f with backup_ts := ts } else f) }

/-- `delete_file_entry`: `DELETE FROM files WHERE id = ?`. -/
def delete_file_entry (s : Store) (file_id : Int) : Store :=
  { s with files := s.files.filter (fun f => f.id ≠ file_id) }

/-- Grouping key of a `files` row, as in `GROUP BY dir_id, file_name`. -/
def fileKey (f : FileRow) : Int × String := (f.dir_id, f.file_name)

/-- The distinct `(dir_id, file_name)` groups present in the store (the rows
the `GROUP BY dir_id, file_name` query of `mark_all_deleted_files` yields,
one per group; the group order is irrelevant to every claim). -/
def groupKeys (s : Store) : List (Int × String) :=
  (s.files.map fileKey).dedup

/-- `MAX(backup_ts)` of a group (only applied to nonempty groups). -/
def maxTsOf : List FileRow → Int
  | [] => 0
  | x :: xs => xs.foldl (fun a f => max a f.backup_ts) x.backup_ts

/-- The loop body of `mark_all_deleted_files`: one row of the grouped query
(`row.max_ts`, `row.dir_id`, `row.file_name` — evaluated against the original
store `s`, since the `GROUP BY` result is materialised before the inserts);
when `row.max_ts < current_run_ts`, insert a tombstone
`INSERT INTO files (version, dir_id, file_name, backup_ts, hsh) VALUES
(?, ?, ?, ?, NULL)` into the accumulated store.  The insert omits `id`.
Modelled from the spec: the schema (not under src/) makes `id`
nullable-on-insert-autogenerated, so the embedding assigns the fresh id
`max(existing id) + 1`; no claim depends on the value. -/
def markStep (s : Store) (current_run_ts : Int) (acc : Store) (k : Int × String) : Store :=
  if maxTsOf (get_dir_files s k.1 k.2) < current_run_ts then
    { acc with files :=
        acc.files ++ [⟨VERSION, k.1, get_max_file_id acc + 1, k.2, current_run_ts, none⟩] }
  else acc

/-- `mark_all_deleted_files` (data layer): stream the grouped query
`SELECT MAX(backup_ts), dir_id, file_name, hsh FROM files GROUP BY dir_id,
file_name` and run `markStep` for every group. -/
def mark_all_deleted_files (s : Store) (current_run_ts : Int) : Store :=
  (groupKeys s).foldl (markStep s current_run_ts) s

end DataLayer

/-! ## History service (src/history_service/mod.rs) -/

/-- Mirror of `enum FileStatus` (the spec calls `DoesNotNeedBackup`
"UpToDate"). -/
inductive FileStatus where
  | NeedsBackup (sub_dir_id file_id : Int) (file_name : String)
  | DoesNotNeedBackup
deriving Repr, DecidableEq

/-- The mutable state of `FileHistoryService` relevant to the claims: the
monotonic `next_file_id` counter and `max_copies`.  The `data_layer` and
`time_provider` references become explicit `Store` and timestamp arguments. -/
structure FileHistoryService where
  next_file_id : Int
  max_copies : Int
deriving Repr, DecidableEq

namespace FileHistoryService

/-- The `while let` loop of `traverse_to_subdir`: at each level, return the
current directory id once only the final path segment (the file name) remains;
otherwise look the child up by name among the sub-directories of the current
directory (`.filter(...).next()` = first match) and, when absent and
`create_dirs` is set, create it.  Falling out of the loop (path exhausted or
no current directory) yields `Ok(None)`. -/
def traverseLoop : Store → Option Int → List String → Bool → Option Int × Store
  | s, some dir_id, sub_path :: rest, create_dirs =>
    if rest.isEmpty then (some dir_id, s)
    else
      match ((DataLayer.get_sub_dirs s dir_id).filter
               (fun d => d.dir_name = sub_path)).head?.map (fun d => d.id) with
      | none =>
        if create_dirs then
          let c := DataLayer.create_dir s sub_path (some dir_id)
          traverseLoop c.2 (some c.1) rest true
        else traverseLoop s none rest create_dirs
      | some found => traverseLoop s (some found) rest create_dirs
  | s, _, _, _ => (none, s)

/-- `traverse_to_subdir`: resolve (and with `create_dirs` lazily create) the
directory chain of `path`, returning the id of the directory one level above
the final segment.  The `[]` arm models the `path.next().unwrap()` panic on an
empty iterator, which the service never produces. -/
def traverse_to_subdir (s : Store) (path : List String) (create_dirs : Bool) :
    Option Int × Store :=
  match path with
  | [] => (none, s)
  | root_dir :: rest =>
    match (DataLayer.get_dir s root_dir).map (fun d => d.id) with
    | none =>
      if create_dirs then
        let c := DataLayer.create_dir s root_dir none
        traverseLoop c.2 (some c.1) rest true
      else traverseLoop s none rest create_dirs
    | some cur => traverseLoop s (some cur) rest create_dirs

/-- `get_file_status`.  Returns `none` where the source `.unwrap()`s would
panic (empty path / unresolved directory).  Otherwise: if the latest record of
the resolved `(dir, file_name)` group has a non-null hash equal to `hsh`,
refresh its timestamp and report `DoesNotNeedBackup`; otherwise allocate
`next_file_id` (incrementing the counter) and report `NeedsBackup`. -/
def get_file_status (svc : FileHistoryService) (s : Store) (path : List String)
    (hsh : String) (ts : Int) : Option (FileStatus × FileHistoryService × Store) :=
  match path.getLast? with
  | none => none
  | some file_name =>
    let t := traverse_to_subdir s path true
    match t.1 with
    | none => none
    | some sub_dir_id =>
      let latest_hsh := (DataLayer.get_latest_file t.2 sub_dir_id file_name).bind (fun f => f.hsh)
      match latest_hsh with
      | some latest =>
        if latest = hsh then
          some (FileStatus.DoesNotNeedBackup, svc,
            DataLayer.update_latest_hsh_ts t.2 sub_dir_id file_name ts)
        else
          some (FileStatus.NeedsBackup sub_dir_id svc.next_file_id file_name,
            { svc with next_file_id := svc.next_file_id + 1 }, t.2)
      | none =>
        some (FileStatus.NeedsBackup sub_dir_id svc.next_file_id file_name,
          { svc with next_file_id := svc.next_file_id + 1 }, t.2)

/-- First row attaining the minimum `backup_ts`
(`files.iter().min_by_key(|f| f.backup_ts)`; Rust's `min_by_key` returns the
first of several equally-minimal elements). -/
def minByTs : List FileRow → Option FileRow
  | [] => none
  | x :: xs => some (xs.foldl (fun a f => if f.backup_ts < a.backup_ts then f else a) x)

/-- `create_file_entry` (service): insert the new record at the run timestamp,
fetch the `(dir_id, file_name)` group, and if its size exceeds `max_copies`
delete the minimum-`backup_ts` record and return its id.  The `none` arm of
the inner match models the `.unwrap()` on `min_by_key`, unreachable because
the just-inserted row belongs to the group. -/
def create_file_entry (max_copies : Int) (s : Store) (dir_id file_id : Int)
    (file_name hsh : String) (ts : Int) : Option Int × Store :=
  let s1 := DataLayer.create_file_entry s dir_id file_id file_name hsh ts
  let files := DataLayer.get_dir_files s1 dir_id file_name
  if (files.length : Int) > max_copies then
    match minByTs files with
    | some f => (some f.id, DataLayer.delete_file_entry s1 f.id)
    | none => (none, s1)
  else (none, s1)

/-- `mark_all_deleted_files` (service): delegates to the data layer at the
run timestamp. -/
def mark_all_deleted_files (s : Store) (ts : Int) : Store :=
  DataLayer.mark_all_deleted_files s ts

/-- `FileHistoryService::new`: seed `next_file_id` from
`get_max_file_id() + 1`. -/
def new (s : Store) (max_copies : Int) : FileHistoryService :=
  { next_file_id := DataLayer.get_max_file_id s + 1, max_copies := max_copies }

end FileHistoryService

/-! ## The driving loop of main.rs, restricted to the history store

One iteration of `while let Some(Ok((path, hsh))) = hashes.next()`: call
`get_file_status`; on `NeedsBackup` follow with `create_file_entry` using the
returned ids (the artifact-store calls do not touch the history store).  Used
to state the lifetime-wide id claims (C7). -/

/-- One input drained from the hash stream: the file's path segments, its hash
string, and the run timestamp the time provider hands the service. -/
def RunInput : Type := List String × String × Int

/-- One iteration of the driving loop.  Returns `none` when the service would
panic, otherwise the new service state, the new store, and the file id of a
`NeedsBackup` answer when one was allocated. -/
def runStep (st : FileHistoryService × Store) (inp : RunInput) :
    Option (FileHistoryService × Store × Option Int) :=
  match FileHistoryService.get_file_status st.1 st.2 inp.1 inp.2.1 inp.2.2 with
  | none => none
  | some (FileStatus.DoesNotNeedBackup, svc, s) => some (svc, s, none)
  | some (FileStatus.NeedsBackup sub_dir_id file_id file_name, svc, s) =>
      let c := FileHistoryService.create_file_entry svc.max_copies s sub_dir_id file_id
                 file_name inp.2.1 inp.2.2
      some (svc, c.2, some file_id)

/-- The driving loop over a list of hash-stream inputs, also accumulating the
list of file ids carried by the `NeedsBackup` answers, in order. -/
def runTrace : List RunInput → FileHistoryService × Store × List Int →
    Option (FileHistoryService × Store × List Int)
  | [], st => some st
  | inp :: rest, (svc, s, allocs) =>
    match runStep (svc, s) inp with
    | none => none
    | some (svc2, s2, fid?) => runTrace rest (svc2, s2, allocs ++ fid?.toList)

/-! ## Hash service (src/hash_svc/mod.rs)

`hash_file_path` opens the file, then loops `file_reader.read(&mut bytes)`
over a 1024-byte buffer: `Ok(0)` breaks, `Ok(_)` folds the **entire** buffer
into an md5 context (`md5_ctx.consume(bytes)`), `Err(e)` executes
`panic!("{:?}", e)`.  After the loop the yielded digest is
`md5::compute(bytes)` — md5 of the final buffer contents; the incremental
`md5_ctx` accumulator is dropped unused.  The md5 function itself and the
base64 text encoding are kept abstract (parameters), since every claim about
this stage concerns which bytes reach the digest, not md5 arithmetic. -/

namespace HashSvc

/-- `let mut bytes = [0u8; 1024]` — the read buffer size. -/
def BUF_SIZE : Nat := 1024

/-- Result of one `file_reader.read(&mut bytes)` call: either `n` fresh bytes
copied into the front of the buffer (`n = bytes.length ≤ 1024`; `[]` is the
`Ok(0)` end-of-file answer) or an I/O error (modelled by an error code). -/
inductive ReadStep where
  | chunk (bytes : List Nat)
  | ioError (e : Nat)
deriving Repr, DecidableEq

/-- How one hashing task ends: a digest yielded as `Ok((path, hash))`, an
`Err(Error::FileReadError(e))` from the `?` on `File::open`, or the
`panic!` in the read loop, which aborts the spawned task (the engine then
sees it as a `JoinError`, not as that file's `FileReadError` slot). -/
inductive HashOutcome where
  | hashed (digest : List Nat)
  | fileReadError (e : Nat)
  | taskAborted (e : Nat)
deriving Repr, DecidableEq

/-- The buffer after a read of `new` bytes: the fresh bytes overwrite the
front, the rest of the previous contents stays. -/
def overlay (buf new : List Nat) : List Nat :=
  new ++ buf.drop new.length

/-- The read loop of `hash_file_path`.  On `Ok(0)` (or the trace ending, i.e.
every further read returning 0) it breaks and computes `md5::compute(bytes)`
over the final buffer; the incremental context is discarded by the source, so
it does not appear in the result.  On `Err(e)` the source panics. -/
def readLoop (md5compute : List Nat → List Nat) :
    List Nat → List ReadStep → HashOutcome
  | buf, [] => HashOutcome.hashed (md5compute buf)
  | buf, ReadStep.chunk [] :: _ => HashOutcome.hashed (md5compute buf)
  | buf, ReadStep.chunk bs :: rest => readLoop md5compute (overlay buf bs) rest
  | _, ReadStep.ioError e :: _ => HashOutcome.taskAborted e

/-- `hash_file_path`, as a function of the file's I/O behaviour: `File::open`
either fails (the `?` maps it to `Error::FileReadError`) or yields the list of
read results.  The buffer starts as 1024 zero bytes. -/
def hash_file_path (md5compute : List Nat → List Nat)
    (openResult : Except Nat (List ReadStep)) : HashOutcome :=
  match openResult with
  | Except.error e => HashOutcome.fileReadError e
  | Except.ok reads => readLoop md5compute (List.replicate BUF_SIZE 0) reads

/-- The reads a fault-free file of the given byte content produces:
`min(1024, remaining)` bytes per call until the content is exhausted
(`BufReader` over a regular file).  Fuel-indexed to make the recursion
structural; `content.length` calls always suffice. -/
def chunksAux : Nat → List Nat → List ReadStep
  | 0, _ => []
  | fuel + 1, l =>
    if l = [] then []
    else ReadStep.chunk (l.take BUF_SIZE) :: chunksAux fuel (l.drop BUF_SIZE)

/-- See `chunksAux`. -/
def readsOf (content : List Nat) : List ReadStep :=
  chunksAux content.length content

end HashSvc

/-! ## Backup service (src/backup_service/mod.rs)

The filesystem under `backup_file_path` is modelled as the set of existing
directory paths plus an association list from file paths to byte contents.
The gzip compressor (`GzEncoder` at `Compression::best()`) is abstract: a
parameter `gz` from source bytes to compressed bytes.  `backup_data` opens the
target with `write(true).create(true)` — create-if-absent, **no truncate** —
so the compressed stream overwrites the file from offset 0 and any previous
bytes beyond the written length remain. -/

namespace BackupSvc

/-- The part of the filesystem the backup store touches. -/
structure FsState where
  dirs : List String
  files : List (String × List Nat)
deriving Repr, DecidableEq

/-- Lookup of a file's bytes (`None` = no such file). -/
def readFile (m : List (String × List Nat)) (k : String) : Option (List Nat) :=
  (m.find? (fun p => p.1 = k)).map (fun p => p.2)

/-- Store a file's bytes, replacing an existing entry of the same path. -/
def writeFile : List (String × List Nat) → String → List Nat → List (String × List Nat)
  | [], k, v => [(k, v)]
  | p :: rest, k, v => if p.1 = k then (k, v) :: rest else p :: writeFile rest k v

/-- `tokio::fs::create_dir_all`: ensure the directory exists. -/
def createDirAll (ds : List String) (d : String) : List String :=
  if d ∈ ds then ds else ds ++ [d]

/-- The shard directory `{backup_root}/{id / 100_000}` (Rust `i64` division
truncates toward zero, `Int.tdiv`). -/
def shardDir (root : String) (id : Int) : String :=
  root ++ "/" ++ toString (Int.tdiv id 100000)

/-- The artifact path `{shard}/{id}.gz`. -/
def backupPath (root : String) (id : Int) : String :=
  shardDir root id ++ "/" ++ toString id ++ ".gz"

/-- `backup_data(id, path)`: read the source fully, compress, create the shard
directory, open the target with `write(true).create(true)` (an absent file is
created empty; an existing one is **not** truncated) and write the compressed
stream from the start of the file. -/
def backup_data (gz : List Nat → List Nat) (root : String) (fs : FsState)
    (id : Int) (src : List Nat) : FsState :=
  let dirs1 := createDirAll fs.dirs (shardDir root id)
  let old := (readFile fs.files (backupPath root id)).getD []
  let written := gz src
  { dirs := dirs1,
    files := writeFile fs.files (backupPath root id)
      (written ++ old.drop written.length) }

/-- Failure of `delete_backup` (`Error::IOError` wrapping the NotFound error
`tokio::fs::remove_file` returns for a missing file). -/
inductive BackupErr where
  | notFound
deriving Repr, DecidableEq

/-- `delete_backup(id)`: unconditionally `create_dir_all` the shard directory,
then `remove_file` the artifact path — an error if it does not exist, with the
directory creation already performed. -/
def delete_backup (root : String) (fs : FsState) (id : Int) :
    Except BackupErr Unit × FsState :=
  let fs1 : FsState := { fs with dirs := createDirAll fs.dirs (shardDir root id) }
  match readFile fs1.files (backupPath root id) with
  | none => (Except.error BackupErr.notFound, fs1)
  | some _ =>
      (Except.ok (), { fs1 with files := fs1.files.filter (fun p => p.1 ≠ backupPath root id) })

end BackupSvc

end DriveBackup

namespace DriveBackup

/-! Helper lemmas about the hash model. -/

theorem chunksAux_nil (fuel : Nat) : HashSvc.chunksAux fuel [] = [] := by
  cases fuel <;> simp [HashSvc.chunksAux]

theorem chunksAux_step (fuel : Nat) (l : List Nat) (h : l ≠ []) :
    HashSvc.chunksAux (fuel + 1) l
      = HashSvc.ReadStep.chunk (l.take HashSvc.BUF_SIZE)
          :: HashSvc.chunksAux fuel (l.drop HashSvc.BUF_SIZE) := by
  simp [HashSvc.chunksAux, h]

theorem readsOf_two_full_chunks (c1 c2 : List Nat)
    (h1 : c1.length = 1024) (h2 : c2.length = 1024) :
    HashSvc.readsOf (c1 ++ c2)
      = [HashSvc.ReadStep.chunk c1, HashSvc.ReadStep.chunk c2] := by
  have hlen : (c1 ++ c2).length = 2048 := by
    rw [List.length_append, h1, h2]
  have hne : c1 ++ c2 ≠ [] := by
    intro hc; rw [hc] at hlen; simp at hlen
  have hne2 : c2 ≠ [] := by
    intro hc; rw [hc] at h2; simp at h2
  rw [HashSvc.readsOf, hlen]
  rw [show (2048 : Nat) = 2047 + 1 by norm_num, chunksAux_step _ _ hne]
  rw [show HashSvc.BUF_SIZE = 1024 from rfl, List.take_left' h1, List.drop_left' h1]
  rw [show (2047 : Nat) = 2046 + 1 by norm_num, chunksAux_step _ _ hne2]
  rw [show HashSvc.BUF_SIZE = 1024 from rfl,
    List.take_of_length_le (by rw [h2]), List.drop_eq_nil_of_le (by rw [h2]),
    chunksAux_nil]

theorem hash_two_full_chunks (md5compute : List Nat → List Nat) (c1 c2 : List Nat)
    (h1 : c1.length = 1024) (h2 : c2.length = 1024) :
    HashSvc.hash_file_path md5compute (Except.ok (HashSvc.readsOf (c1 ++ c2)))
      = HashSvc.HashOutcome.hashed (md5compute c2) := by
  obtain ⟨b1, t1, rfl⟩ : ∃ b t, c1 = b :: t := by
    cases c1 with
    | nil => simp at h1
    | cons b t => exact ⟨b, t, rfl⟩
  obtain ⟨b2, t2, rfl⟩ : ∃ b t, c2 = b :: t := by
    cases c2 with
    | nil => simp at h2
    | cons b t => exact ⟨b, t, rfl⟩
  rw [HashSvc.hash_file_path, readsOf_two_full_chunks _ _ h1 h2]
  rw [show HashSvc.readLoop md5compute (List.replicate HashSvc.BUF_SIZE 0)
        [HashSvc.ReadStep.chunk (b1 :: t1), HashSvc.ReadStep.chunk (b2 :: t2)]
      = HashSvc.readLoop md5compute
          (HashSvc.overlay (HashSvc.overlay (List.replicate HashSvc.BUF_SIZE 0) (b1 :: t1)) (b2 :: t2)) []
      from rfl]
  rw [HashSvc.readLoop]
  have hov1 : HashSvc.overlay (List.replicate HashSvc.BUF_SIZE 0) (b1 :: t1) = b1 :: t1 := by
    rw [HashSvc.overlay, List.drop_eq_nil_of_le
      (by rw [List.length_replicate, h1]; exact Nat.le.refl), List.append_nil]
  have hov2 : HashSvc.overlay (b1 :: t1) (b2 :: t2) = b2 :: t2 := by
    rw [HashSvc.overlay, List.drop_eq_nil_of_le (by rw [h1, h2]), List.append_nil]
  rw [hov1, hov2]

/-- Claim C1: the spec says the yielded digest is the (base64-encoded) 128-bit
digest of the file's entire byte sequence, folded chunk-by-chunk through one
incremental accumulator, so that it depends on every byte.  The code drops the
incremental `md5_ctx` and hashes only the residual read buffer
(`md5::compute(bytes)`), so two files differing in their entire first
1024-byte chunk get the same digest, whatever the md5 and encoding functions
are: the digest does not depend on every byte. -/
theorem c1_digest_ignores_first_chunk :
    ∀ md5compute : List Nat → List Nat,
      HashSvc.hash_file_path md5compute
          (Except.ok (HashSvc.readsOf (List.replicate 1024 1 ++ List.replicate 1024 2)))
        = HashSvc.hash_file_path md5compute
            (Except.ok (HashSvc.readsOf (List.replicate 1024 3 ++ List.replicate 1024 2)))
    ∧ (List.replicate 1024 1 ++ List.replicate 1024 2 : List Nat)
        ≠ List.replicate 1024 3 ++ List.replicate 1024 2 := by
  intro md5c
  constructor
  · rw [hash_two_full_chunks md5c _ _ (by rw [List.length_replicate])
        (by rw [List.length_replicate]),
      hash_two_full_chunks md5c _ _ (by rw [List.length_replicate])
        (by rw [List.length_replicate])]
  · intro h
    have hh := congrArg List.head? h
    have h1024 : (1024 : Nat) ≠ 0 := by norm_num
    rw [List.head?_append, List.head?_append] at hh
    simp only [List.head?_replicate, if_neg h1024, Option.or_some,
      Option.some.injEq] at hh
    exact absurd hh (by norm_num)

/-- Claim C3: the spec says a failed read fails only that file's result slot
with `FileReadError`.  In the code only the `File::open` failure does so; an
I/O error during the chunked read loop hits `Err(e) => panic!(...)`, aborting
the task (the engine sees a `JoinError`, not a `FileReadError` for the slot). -/
theorem c3_read_error_panics :
    HashSvc.hash_file_path (fun l => l) (Except.error 5)
        = HashSvc.HashOutcome.fileReadError 5
  ∧ HashSvc.hash_file_path (fun l => l) (Except.ok [HashSvc.ReadStep.ioError 7])
        = HashSvc.HashOutcome.taskAborted 7
  ∧ HashSvc.HashOutcome.taskAborted 7 ≠ HashSvc.HashOutcome.fileReadError 7 := by
  exact ⟨rfl, rfl, by decide⟩

/-! Helper lemmas about the backup store model. -/

theorem readFile_writeFile_same (m : List (String × List Nat)) (k : String) (v : List Nat) :
    BackupSvc.readFile (BackupSvc.writeFile m k v) k = some v := by
  induction m with
  | nil =>
    rw [BackupSvc.writeFile, BackupSvc.readFile, List.find?_cons_of_pos _ (by simp)]
    rfl
  | cons pr rest ih =>
    by_cases hp : pr.1 = k
    · rw [BackupSvc.writeFile, if_pos hp, BackupSvc.readFile,
        List.find?_cons_of_pos _ (by simp)]
      rfl
    · rw [BackupSvc.writeFile, if_neg hp, BackupSvc.readFile,
        List.find?_cons_of_neg _ (by simp [hp])]
      exact ih

theorem readFile_writeFile_other (m : List (String × List Nat)) (k q : String) (v : List Nat)
    (h : q ≠ k) :
    BackupSvc.readFile (BackupSvc.writeFile m k v) q = BackupSvc.readFile m q := by
  have hkq : ¬((k, v).1 = q) := fun hh => h hh.symm
  induction m with
  | nil =>
    rw [BackupSvc.writeFile, BackupSvc.readFile, List.find?_cons_of_neg _ (by simp [hkq])]
    rfl
  | cons pr rest ih =>
    by_cases hp : pr.1 = k
    · have hpq : ¬(pr.1 = q) := by rw [hp]; exact fun hh => h hh.symm
      rw [BackupSvc.writeFile, if_pos hp, BackupSvc.readFile, BackupSvc.readFile,
        List.find?_cons_of_neg _ (by simp [hkq]), List.find?_cons_of_neg _ (by simp [hpq])]
    · rw [BackupSvc.writeFile, if_neg hp, BackupSvc.readFile, BackupSvc.readFile]
      by_cases hq : pr.1 = q
      · rw [List.find?_cons_of_pos _ (by simp [hq]), List.find?_cons_of_pos _ (by simp [hq])]
      · rw [List.find?_cons_of_neg _ (by simp [hq]), List.find?_cons_of_neg _ (by simp [hq])]
        exact ih

theorem mem_createDirAll (ds : List String) (d : String) :
    d ∈ BackupSvc.createDirAll ds d := by
  by_cases h : d ∈ ds <;> simp [BackupSvc.createDirAll, h]

/-- Claim C9 counterexample: `backup_data` opens the target with
`write(true).create(true)` and no truncate, so with a pre-existing longer
artifact at the target path the old trailing bytes survive: the stored file is
not the compressed stream (compressor abstracted as the identity function). -/
theorem c9_counterexample :
    BackupSvc.readFile
        ((BackupSvc.backup_data (fun l => l) "r"
            ⟨["r/0"], [("r/0/1.gz", [5, 7, 7])]⟩ 1 [9]).files) "r/0/1.gz"
      = some [9, 7, 7]
  ∧ ([9, 7, 7] : List Nat) ≠ (fun l => l) [9] := by
  exact ⟨by decide, by decide⟩

/-- Claim C9 amended: `store(id, source_path)` writes the compressed source to
exactly `{root}/{id div 100000}/{id}.gz`, creates the shard directory, and
opens the target with create-if-absent semantics without truncation: the
compressed stream overwrites the file from the start and previously present
bytes beyond the written length survive. -/
theorem c9_no_truncate (gz : List Nat → List Nat) (root : String)
    (fs : BackupSvc.FsState) (id : Int) (src : List Nat) :
    BackupSvc.readFile (BackupSvc.backup_data gz root fs id src).files
        (BackupSvc.backupPath root id)
      = some (gz src
          ++ ((BackupSvc.readFile fs.files (BackupSvc.backupPath root id)).getD []).drop
               (gz src).length)
  ∧ BackupSvc.shardDir root id ∈ (BackupSvc.backup_data gz root fs id src).dirs
  ∧ ∀ q, q ≠ BackupSvc.backupPath root id →
      BackupSvc.readFile (BackupSvc.backup_data gz root fs id src).files q
        = BackupSvc.readFile fs.files q := by
  refine ⟨?_, ?_, ?_⟩
  · rw [BackupSvc.backup_data]
    exact readFile_writeFile_same _ _ _
  · rw [BackupSvc.backup_data]
    exact mem_createDirAll _ _
  · intro q hq
    rw [BackupSvc.backup_data]
    exact readFile_writeFile_other _ _ _ _ hq

/-- Witness for c9_no_truncate at a concrete store, id and foreign path. -/
theorem c9_no_truncate_witness :
    BackupSvc.readFile
        ((BackupSvc.backup_data (fun l => l) "r"
            ⟨["r/0"], [("r/0/1.gz", [5, 7, 7])]⟩ 1 [9]).files)
        (BackupSvc.backupPath "r" 1)
      = some ([9] ++ ([5, 7, 7] : List Nat).drop 1)
  ∧ BackupSvc.shardDir "r" 1
      ∈ (BackupSvc.backup_data (fun l => l) "r"
          ⟨["r/0"], [("r/0/1.gz", [5, 7, 7])]⟩ 1 [9]).dirs
  ∧ BackupSvc.readFile
        ((BackupSvc.backup_data (fun l => l) "r"
            ⟨["r/0"], [("r/0/1.gz", [5, 7, 7])]⟩ 1 [9]).files) "x"
      = BackupSvc.readFile [("r/0/1.gz", [5, 7, 7])] "x" := by
  obtain ⟨a, b, c⟩ := c9_no_truncate (fun l => l) "r"
    ⟨["r/0"], [("r/0/1.gz", [5, 7, 7])]⟩ 1 [9]
  exact ⟨by rw [a]; decide, b, c "x" (by decide)⟩

/-- Claim C10: `delete_backup(id)` unconditionally ensures the shard directory
exists before removing the artifact; for an id with no stored artifact it
returns the not-found error yet leaves behind the freshly created, empty shard
directory, with no file touched. -/
theorem c10_delete_creates_shard_dir (root : String) (fs : BackupSvc.FsState) (id : Int)
    (h1 : BackupSvc.readFile fs.files (BackupSvc.backupPath root id) = none)
    (h2 : BackupSvc.shardDir root id ∉ fs.dirs) :
    (BackupSvc.delete_backup root fs id).1 = Except.error BackupSvc.BackupErr.notFound
  ∧ (BackupSvc.delete_backup root fs id).2.dirs = fs.dirs ++ [BackupSvc.shardDir root id]
  ∧ (BackupSvc.delete_backup root fs id).2.files = fs.files := by
  simp [BackupSvc.delete_backup, BackupSvc.createDirAll, if_neg h2, h1]

/-- Witness for c10_delete_creates_shard_dir: empty filesystem, id 3. -/
theorem c10_witness :
    (BackupSvc.delete_backup "r" ⟨[], []⟩ 3).1
        = Except.error BackupSvc.BackupErr.notFound
  ∧ (BackupSvc.delete_backup "r" ⟨[], []⟩ 3).2.dirs = [] ++ [BackupSvc.shardDir "r" 3]
  ∧ (BackupSvc.delete_backup "r" ⟨[], []⟩ 3).2.files = [] :=
  c10_delete_creates_shard_dir "r" ⟨[], []⟩ 3 (by decide) (by decide)

/-- Claim C6 counterexample: with `max_copies = 2` and a group holding a
tombstone (null hash, oldest timestamp) and one regular record, a further
`create_file_entry` overflows the group and the retention eviction deletes the
tombstone (id 10) — contradicting "a record with a null content hash is never
removed by the retention mechanism". -/
theorem c6_counterexample :
    (FileHistoryService.create_file_entry 2
        (⟨[], [⟨1, 5, 10, "f", 2, none⟩, ⟨1, 5, 11, "f", 3, some "h1"⟩]⟩ : Store)
        5 12 "f" "h2" 4).1 = some 10
  ∧ (⟨1, 5, 10, "f", 2, none⟩ : FileRow).hsh = none
  ∧ (⟨1, 5, 10, "f", 2, none⟩ : FileRow)
      ∈ (⟨[], [⟨1, 5, 10, "f", 2, none⟩, ⟨1, 5, 11, "f", 3, some "h1"⟩]⟩ : Store).files
  ∧ (⟨1, 5, 10, "f", 2, none⟩ : FileRow)
      ∉ ((FileHistoryService.create_file_entry 2
          (⟨[], [⟨1, 5, 10, "f", 2, none⟩, ⟨1, 5, 11, "f", 3, some "h1"⟩]⟩ : Store)
          5 12 "f" "h2" 4).2).files := by
  refine ⟨by decide, rfl, by decide, by decide⟩

/-- Claim C6 amended: the retention eviction selects the record with the
minimum backup timestamp in the post-insert group without regard to its
content hash; in particular a tombstone is evicted whenever it is that
minimum (see the counterexample). -/
theorem c6_amended_eviction_ignores_hash (mc : Int) (s : Store) (dir_id file_id : Int)
    (file_name hsh : String) (ts : Int) :
    (FileHistoryService.create_file_entry mc s dir_id file_id file_name hsh ts).1
      = if ((DataLayer.get_dir_files
              (DataLayer.create_file_entry s dir_id file_id file_name hsh ts)
              dir_id file_name).length : Int) > mc
        then (FileHistoryService.minByTs
                (DataLayer.get_dir_files
                  (DataLayer.create_file_entry s dir_id file_id file_name hsh ts)
                  dir_id file_name)).map FileRow.id
        else none := by
  rw [FileHistoryService.create_file_entry]
  by_cases hc : ((DataLayer.get_dir_files
      (DataLayer.create_file_entry s dir_id file_id file_name hsh ts)
      dir_id file_name).length : Int) > mc
  · rw [if_pos hc, if_pos hc]
    cases hm : FileHistoryService.minByTs
        (DataLayer.get_dir_files
          (DataLayer.create_file_entry s dir_id file_id file_name hsh ts)
          dir_id file_name) with
    | none => simp [hm]
    | some f => simp [hm]
  · rw [if_neg hc, if_neg hc]

end DriveBackup

namespace DriveBackup
open FileHistoryService

theorem traverseLoop_nil (s : Store) (cur : Option Int) (c : Bool) :
    traverseLoop s cur [] c = (none, s) := by
  cases cur <;> rfl

theorem traverseLoop_none (s : Store) (rest : List String) (c : Bool) :
    traverseLoop s none rest c = (none, s) := by
  cases rest <;> rfl

theorem traverseLoop_last (s : Store) (d : Int) (sub : String) (c : Bool) :
    traverseLoop s (some d) [sub] c = (some d, s) := rfl

theorem traverseLoop_cons_found (s : Store) (d : Int) (sub : String) (rest : List String)
    (c : Bool) (fid : Int) (hre : ¬rest.isEmpty = true)
    (hfind : ((DataLayer.get_sub_dirs s d).filter
        (fun x => x.dir_name = sub)).head?.map (fun x => x.id) = some fid) :
    traverseLoop s (some d) (sub :: rest) c = traverseLoop s (some fid) rest c := by
  rw [traverseLoop, if_neg hre, hfind]

theorem traverseLoop_cons_create (s : Store) (d : Int) (sub : String) (rest : List String)
    (hre : ¬rest.isEmpty = true)
    (hfind : ((DataLayer.get_sub_dirs s d).filter
        (fun x => x.dir_name = sub)).head?.map (fun x => x.id) = none) :
    traverseLoop s (some d) (sub :: rest) true
      = traverseLoop (DataLayer.create_dir s sub (some d)).2
          (some (DataLayer.create_dir s sub (some d)).1) rest true := by
  rw [traverseLoop, if_neg hre, hfind, if_pos rfl]

end DriveBackup

namespace DriveBackup
open FileHistoryService

theorem traverse_cons_found (s : Store) (root : String) (rest : List String) (c : Bool)
    (cur : Int) (h : (DataLayer.get_dir s root).map (fun d => d.id) = some cur) :
    traverse_to_subdir s (root :: rest) c = traverseLoop s (some cur) rest c := by
  rw [traverse_to_subdir, h]

theorem traverse_cons_create (s : Store) (root : String) (rest : List String)
    (h : (DataLayer.get_dir s root).map (fun d => d.id) = none) :
    traverse_to_subdir s (root :: rest) true
      = traverseLoop (DataLayer.create_dir s root none).2
          (some (DataLayer.create_dir s root none).1) rest true := by
  rw [traverse_to_subdir, h, if_pos rfl]

theorem traverseLoop_files (rest : List String) :
    ∀ (s : Store) (cur : Option Int) (c : Bool),
      ((traverseLoop s cur rest c).2).files = s.files := by
  induction rest with
  | nil => intro s cur c; rw [traverseLoop_nil]
  | cons sub rest ih =>
    intro s cur c
    cases cur with
    | none => rw [traverseLoop_none]
    | some d =>
      by_cases hre : rest.isEmpty
      · rw [traverseLoop, if_pos hre]
      · cases hfind : ((DataLayer.get_sub_dirs s d).filter
            (fun x => x.dir_name = sub)).head?.map (fun x => x.id) with
        | none =>
          cases c with
          | false =>
            rw [traverseLoop, if_neg hre, hfind]
            simp only [Bool.false_eq_true, if_false]
            rw [traverseLoop_none]
          | true =>
            rw [traverseLoop_cons_create s d sub rest hre hfind, ih]
            rfl
        | some fid =>
          rw [traverseLoop_cons_found s d sub rest c fid hre hfind]
          exact ih _ _ _

theorem traverse_files (s : Store) (path : List String) (c : Bool) :
    ((traverse_to_subdir s path c).2).files = s.files := by
  cases path with
  | nil => rfl
  | cons root rest =>
    cases hfind : (DataLayer.get_dir s root).map (fun d => d.id) with
    | none =>
      cases c with
      | false =>
        rw [traverse_to_subdir, hfind]
        simp only [Bool.false_eq_true, if_false]
        rw [traverseLoop_files]
      | true =>
        rw [traverse_cons_create s root rest hfind, traverseLoop_files]
        rfl
    | some cur =>
      rw [traverse_cons_found s root rest c cur hfind]
      exact traverseLoop_files _ _ _ _

/-- Claim C4: when the latest record of the resolved directory and file name
exists with a non-null hash equal to the incoming hash, `get_file_status`
refreshes exactly that record's `backup_ts` to the current run timestamp and
returns `DoesNotNeedBackup` (the spec's `UpToDate`); no file row is added or
removed, and the service value — in particular `next_file_id` — is unchanged. -/
theorem c4_up_to_date (svc : FileHistoryService) (s : Store) (path : List String)
    (hsh : String) (ts : Int) (file_name : String) (d : Int) (r : FileRow)
    (hn : path.getLast? = some file_name)
    (hd : (traverse_to_subdir s path true).1 = some d)
    (hr : DataLayer.get_latest_file
        (traverse_to_subdir s path true).2 d file_name = some r)
    (hh : r.hsh = some hsh) :
    get_file_status svc s path hsh ts
      = some (FileStatus.DoesNotNeedBackup, svc,
          { (traverse_to_subdir s path true).2 with
            files := s.files.map
              (fun f => if f.id = r.id then { f with backup_ts := ts } else f) })
  ∧ (s.files.map (fun f => if f.id = r.id then { f with backup_ts := ts } else f)).length
      = s.files.length := by
  have hfiles : ((traverse_to_subdir s path true).2).files = s.files :=
    traverse_files s path true
  constructor
  · simp only [get_file_status, hn, hd, hr, Option.some_bind, hh]
    simp only [if_true]
    rw [DataLayer.update_latest_hsh_ts, ← DataLayer.get_latest_file, hr, hfiles]
  · simp

end DriveBackup

namespace DriveBackup

/-- Witness for c4_up_to_date. -/
theorem c4_witness :
    FileHistoryService.get_file_status ⟨100, 3⟩
        (⟨[⟨1, none, "/"⟩, ⟨2, some 1, "data"⟩], [⟨1, 2, 10, "f.txt", 5, some "h"⟩]⟩ : Store)
        ["/", "data", "f.txt"] "h" 9
      = some (FileStatus.DoesNotNeedBackup, (⟨100, 3⟩ : FileHistoryService),
          (⟨[⟨1, none, "/"⟩, ⟨2, some 1, "data"⟩], [⟨1, 2, 10, "f.txt", 9, some "h"⟩]⟩ : Store))
  ∧ (([⟨1, 2, 10, "f.txt", 5, some "h"⟩] : List FileRow).map
        (fun f => if f.id = (10 : Int) then { f with backup_ts := 9 } else f)).length
      = ([⟨1, 2, 10, "f.txt", 5, some "h"⟩] : List FileRow).length := by
  have h := c4_up_to_date ⟨100, 3⟩
    (⟨[⟨1, none, "/"⟩, ⟨2, some 1, "data"⟩], [⟨1, 2, 10, "f.txt", 5, some "h"⟩]⟩ : Store)
    ["/", "data", "f.txt"] "h" 9 "f.txt" 2 ⟨1, 2, 10, "f.txt", 5, some "h"⟩
    (by decide) (by decide) (by decide) rfl
  exact ⟨by rw [h.1]; decide, h.2⟩

end DriveBackup

namespace DriveBackup

theorem minByTs_eq_none_iff (l : List FileRow) :
    FileHistoryService.minByTs l = none ↔ l = [] := by
  cases l <;> simp [FileHistoryService.minByTs]

theorem minByTs_foldl_spec (xs : List FileRow) :
    ∀ x : FileRow,
      (xs.foldl (fun a f => if f.backup_ts < a.backup_ts then f else a) x) ∈ x :: xs
    ∧ (xs.foldl (fun a f => if f.backup_ts < a.backup_ts then f else a) x).backup_ts
        ≤ x.backup_ts
    ∧ ∀ r ∈ xs,
        (xs.foldl (fun a f => if f.backup_ts < a.backup_ts then f else a) x).backup_ts
          ≤ r.backup_ts := by
  induction xs with
  | nil =>
    intro x
    refine ⟨List.mem_singleton_self x, le_refl _, ?_⟩
    intro r hr; cases hr
  | cons y ys ih =>
    intro x
    obtain ⟨hmem, hle, hall⟩ := ih (if y.backup_ts < x.backup_ts then y else x)
    have hstep : ((y :: ys).foldl (fun a f => if f.backup_ts < a.backup_ts then f else a) x)
        = ys.foldl (fun a f => if f.backup_ts < a.backup_ts then f else a)
            (if y.backup_ts < x.backup_ts then y else x) := rfl
    rw [hstep]
    refine ⟨?_, ?_, ?_⟩
    · rcases List.mem_cons.mp hmem with he | hm
      · rw [he]
        by_cases hc : y.backup_ts < x.backup_ts
        · rw [if_pos hc]; exact List.mem_cons_of_mem _ (List.mem_cons_self _ _)
        · rw [if_neg hc]; exact List.mem_cons_self _ _
      · exact List.mem_cons_of_mem _ (List.mem_cons_of_mem _ hm)
    · refine le_trans hle ?_
      by_cases hc : y.backup_ts < x.backup_ts
      · rw [if_pos hc]; exact le_of_lt hc
      · rw [if_neg hc]
    · intro r hr
      rcases List.mem_cons.mp hr with he | hm
      · refine le_trans hle ?_
        rw [he]
        by_cases hc : y.backup_ts < x.backup_ts
        · rw [if_pos hc]
        · rw [if_neg hc]; exact le_of_not_lt hc
      · exact hall r hm

theorem minByTs_spec (l : List FileRow) (m : FileRow)
    (h : FileHistoryService.minByTs l = some m) :
    m ∈ l ∧ ∀ r ∈ l, m.backup_ts ≤ r.backup_ts := by
  cases l with
  | nil => cases h
  | cons x xs =>
    rw [FileHistoryService.minByTs] at h
    obtain ⟨hmem, hle, hall⟩ := minByTs_foldl_spec xs x
    have hm := Option.some.inj h
    constructor
    · rw [← hm]; exact hmem
    · intro r hr
      rw [← hm]
      rcases List.mem_cons.mp hr with he | hrm
      · rw [he]; exact hle
      · exact hall r hrm

theorem length_filter_ne_id (l : List FileRow) :
    ∀ m : FileRow, (l.map FileRow.id).Nodup → m ∈ l →
      (l.filter (fun f => f.id ≠ m.id)).length + 1 = l.length := by
  induction l with
  | nil => intro m _ hm; cases hm
  | cons a t ih =>
    intro m hnd hm
    rw [List.map_cons, List.nodup_cons] at hnd
    obtain ⟨hna, hnt⟩ := hnd
    rcases List.mem_cons.mp hm with rfl | hmt
    · rw [List.filter_cons]
      have hda : (decide (m.id ≠ m.id)) = false := by simp
      rw [hda]
      simp only [Bool.false_eq_true, if_false]
      have hfa : t.filter (fun f => decide (f.id ≠ m.id)) = t := by
        apply List.filter_eq_self.mpr
        intro x hx
        simp only [decide_eq_true_eq]
        intro hxa
        exact hna (hxa ▸ List.mem_map_of_mem FileRow.id hx)
      rw [hfa, List.length_cons]
    · have ham : a.id ≠ m.id :=
        fun he2 => hna (he2 ▸ List.mem_map_of_mem FileRow.id hmt)
      rw [List.filter_cons]
      have hda : (decide (a.id ≠ m.id)) = true := by simp [ham]
      rw [hda]
      simp only [if_true, List.length_cons]
      have := ih m hnt hmt
      omega

end DriveBackup

namespace DriveBackup

/-- Claim C2: `create_file_entry(dir_id, file_id, file_name, hash)` first
inserts a new record at the current run timestamp; then, when the
`(dir_id, file_name)` group exceeds `max_copies`, it deletes exactly the
minimum-`backup_ts` record of the group and returns its id (`some`), otherwise
it returns `none` and leaves the store as after the insert.  At most one
record is deleted per call, and if the group held at most `max_copies` records
before the call it holds at most `max_copies` afterwards.  The two hypotheses
state spec invariant 1 (ids in the store are unique and the inserted id is
fresh), which the service's id allocation maintains (claim C7). -/
theorem c2_insert_then_retention (mc : Int) (s : Store) (dir_id file_id : Int)
    (file_name hsh : String) (ts : Int)
    (hnd : (s.files.map FileRow.id).Nodup)
    (hfresh : file_id ∉ s.files.map FileRow.id) :
    (DataLayer.create_file_entry s dir_id file_id file_name hsh ts).files
        = s.files ++ [⟨VERSION, dir_id, file_id, file_name, ts, some hsh⟩]
  ∧ (if ((DataLayer.get_dir_files
          (DataLayer.create_file_entry s dir_id file_id file_name hsh ts)
          dir_id file_name).length : Int) > mc
     then ∃ m,
        FileHistoryService.minByTs
            (DataLayer.get_dir_files
              (DataLayer.create_file_entry s dir_id file_id file_name hsh ts)
              dir_id file_name) = some m
        ∧ m ∈ DataLayer.get_dir_files
            (DataLayer.create_file_entry s dir_id file_id file_name hsh ts)
            dir_id file_name
        ∧ (∀ r ∈ DataLayer.get_dir_files
              (DataLayer.create_file_entry s dir_id file_id file_name hsh ts)
              dir_id file_name, m.backup_ts ≤ r.backup_ts)
        ∧ (FileHistoryService.create_file_entry mc s dir_id file_id file_name hsh ts).1
            = some m.id
        ∧ ((FileHistoryService.create_file_entry mc s dir_id file_id file_name hsh ts).2).files
            = (DataLayer.create_file_entry s dir_id file_id file_name hsh ts).files.filter
                (fun f => f.id ≠ m.id)
        ∧ (DataLayer.get_dir_files
              (FileHistoryService.create_file_entry mc s dir_id file_id file_name hsh ts).2
              dir_id file_name).length + 1
            = (DataLayer.get_dir_files
                (DataLayer.create_file_entry s dir_id file_id file_name hsh ts)
                dir_id file_name).length
     else (FileHistoryService.create_file_entry mc s dir_id file_id file_name hsh ts).1 = none
        ∧ (FileHistoryService.create_file_entry mc s dir_id file_id file_name hsh ts).2
            = DataLayer.create_file_entry s dir_id file_id file_name hsh ts)
  ∧ (DataLayer.create_file_entry s dir_id file_id file_name hsh ts).files.length
      ≤ ((FileHistoryService.create_file_entry mc s dir_id file_id file_name hsh ts).2).files.length + 1
  ∧ (((DataLayer.get_dir_files s dir_id file_name).length : Int) ≤ mc →
      ((DataLayer.get_dir_files
          (FileHistoryService.create_file_entry mc s dir_id file_id file_name hsh ts).2
          dir_id file_name).length : Int) ≤ mc) := by
  have hrow : (DataLayer.create_file_entry s dir_id file_id file_name hsh ts).files
      = s.files ++ [⟨VERSION, dir_id, file_id, file_name, ts, some hsh⟩] := rfl
  have hg1 : DataLayer.get_dir_files
      (DataLayer.create_file_entry s dir_id file_id file_name hsh ts) dir_id file_name
      = DataLayer.get_dir_files s dir_id file_name
        ++ [⟨VERSION, dir_id, file_id, file_name, ts, some hsh⟩] := by
    simp [DataLayer.get_dir_files, DataLayer.create_file_entry, List.filter_append]
  have hmem_row : (⟨VERSION, dir_id, file_id, file_name, ts, some hsh⟩ : FileRow)
      ∈ DataLayer.get_dir_files
          (DataLayer.create_file_entry s dir_id file_id file_name hsh ts) dir_id file_name := by
    rw [hg1]; exact List.mem_append_right _ (List.mem_singleton_self _)
  have hnd1 : (((DataLayer.create_file_entry s dir_id file_id file_name hsh ts).files).map
      FileRow.id).Nodup := by
    rw [hrow, List.map_append, List.nodup_append]
    refine ⟨hnd, by simp, ?_⟩
    intro a ha hb
    simp only [List.map_cons, List.map_nil, List.mem_singleton] at hb
    rw [hb] at ha
    exact hfresh ha
  have hndg1 : ((DataLayer.get_dir_files
      (DataLayer.create_file_entry s dir_id file_id file_name hsh ts)
      dir_id file_name).map FileRow.id).Nodup :=
    List.Nodup.sublist
      ((List.filter_sublist _).map FileRow.id) hnd1
  by_cases hc : ((DataLayer.get_dir_files
      (DataLayer.create_file_entry s dir_id file_id file_name hsh ts)
      dir_id file_name).length : Int) > mc
  · have hne : DataLayer.get_dir_files
        (DataLayer.create_file_entry s dir_id file_id file_name hsh ts)
        dir_id file_name ≠ [] := List.ne_nil_of_mem hmem_row
    cases hgm : FileHistoryService.minByTs
        (DataLayer.get_dir_files
          (DataLayer.create_file_entry s dir_id file_id file_name hsh ts)
          dir_id file_name) with
    | none => exact absurd ((minByTs_eq_none_iff _).mp hgm) hne
    | some m =>
      obtain ⟨hm_mem, hm_min⟩ := minByTs_spec _ _ hgm
      have hres_fst : (FileHistoryService.create_file_entry mc s dir_id file_id file_name hsh ts).1
          = some m.id := by
        rw [FileHistoryService.create_file_entry, if_pos hc, hgm]
      have hres_snd : (FileHistoryService.create_file_entry mc s dir_id file_id file_name hsh ts).2
          = DataLayer.delete_file_entry
              (DataLayer.create_file_entry s dir_id file_id file_name hsh ts) m.id := by
        rw [FileHistoryService.create_file_entry, if_pos hc, hgm]
      have hgd : DataLayer.get_dir_files
          (DataLayer.delete_file_entry
            (DataLayer.create_file_entry s dir_id file_id file_name hsh ts) m.id)
          dir_id file_name
          = (DataLayer.get_dir_files
              (DataLayer.create_file_entry s dir_id file_id file_name hsh ts)
              dir_id file_name).filter (fun f => f.id ≠ m.id) := by
        simp only [DataLayer.get_dir_files, DataLayer.delete_file_entry, List.filter_filter]
        exact List.filter_congr (fun x hx => Bool.and_comm _ _)
      have hglen : ((DataLayer.get_dir_files
              (DataLayer.create_file_entry s dir_id file_id file_name hsh ts)
              dir_id file_name).filter (fun f => f.id ≠ m.id)).length + 1
          = (DataLayer.get_dir_files
              (DataLayer.create_file_entry s dir_id file_id file_name hsh ts)
              dir_id file_name).length :=
        length_filter_ne_id _ m hndg1 hm_mem
      have hm_mem_s1 : m ∈ (DataLayer.create_file_entry s dir_id file_id file_name hsh ts).files :=
        List.mem_of_mem_filter hm_mem
      have hslen : ((DataLayer.create_file_entry s dir_id file_id file_name hsh ts).files.filter
          (fun f => f.id ≠ m.id)).length + 1
          = (DataLayer.create_file_entry s dir_id file_id file_name hsh ts).files.length :=
        length_filter_ne_id _ m hnd1 hm_mem_s1
      have hg1len : (DataLayer.get_dir_files
          (DataLayer.create_file_entry s dir_id file_id file_name hsh ts)
          dir_id file_name).length
          = (DataLayer.get_dir_files s dir_id file_name).length + 1 := by
        rw [hg1, List.length_append, List.length_cons, List.length_nil]
      refine ⟨hrow, ?_, ?_, ?_⟩
      · rw [if_pos hc]
        refine ⟨m, rfl, hm_mem, hm_min, hres_fst, ?_, ?_⟩
        · rw [hres_snd]
          rfl
        · rw [hres_snd, hgd, hglen]
      · rw [hres_snd]
        show (DataLayer.create_file_entry s dir_id file_id file_name hsh ts).files.length
          ≤ ((DataLayer.create_file_entry s dir_id file_id file_name hsh ts).files.filter
              (fun f => f.id ≠ m.id)).length + 1
        omega
      · intro hb
        rw [hres_snd, hgd]
        omega
  · have hres_fst : (FileHistoryService.create_file_entry mc s dir_id file_id file_name hsh ts).1
        = none := by
      rw [FileHistoryService.create_file_entry, if_neg hc]
    have hres_snd : (FileHistoryService.create_file_entry mc s dir_id file_id file_name hsh ts).2
        = DataLayer.create_file_entry s dir_id file_id file_name hsh ts := by
      rw [FileHistoryService.create_file_entry, if_neg hc]
    refine ⟨hrow, ?_, ?_, ?_⟩
    · rw [if_neg hc]
      exact ⟨hres_fst, hres_snd⟩
    · rw [hres_snd]
      omega
    · intro hb
      rw [hres_snd]
      omega

end DriveBackup

namespace DriveBackup

/-- Witness for c2: max_copies = 1, one existing record (id 7, ts 1); inserting
id 8 at ts 2 overflows the group and evicts exactly id 7. -/
theorem c2_witness :
    (DataLayer.create_file_entry (⟨[], [⟨1, 5, 7, "f", 1, some "g"⟩]⟩ : Store) 5 8 "f" "h" 2).files
        = [⟨1, 5, 7, "f", 1, some "g"⟩] ++ [⟨VERSION, 5, 8, "f", 2, some "h"⟩]
  ∧ (FileHistoryService.create_file_entry 1 (⟨[], [⟨1, 5, 7, "f", 1, some "g"⟩]⟩ : Store)
        5 8 "f" "h" 2).1 = some 7
  ∧ ((DataLayer.get_dir_files
        (FileHistoryService.create_file_entry 1 (⟨[], [⟨1, 5, 7, "f", 1, some "g"⟩]⟩ : Store)
          5 8 "f" "h" 2).2 5 "f").length : Int) ≤ 1 := by
  have h := c2_insert_then_retention 1 (⟨[], [⟨1, 5, 7, "f", 1, some "g"⟩]⟩ : Store)
    5 8 "f" "h" 2 (by decide) (by decide)
  exact ⟨h.1, by decide, h.2.2.2 (by decide)⟩

end DriveBackup

namespace DriveBackup

theorem get_dir_files_markStep_other (s : Store) (ts : Int) (acc : Store) (k : Int × String)
    (d : Int) (n : String) (hk : k ≠ (d, n)) :
    DataLayer.get_dir_files (DataLayer.markStep s ts acc k) d n
      = DataLayer.get_dir_files acc d n := by
  rw [DataLayer.markStep]
  by_cases hc : DataLayer.maxTsOf (DataLayer.get_dir_files s k.1 k.2) < ts
  · rw [if_pos hc]
    simp only [DataLayer.get_dir_files, List.filter_append]
    have hnk : ¬(k.1 = d ∧ k.2 = n) := by
      intro hdn
      exact hk (Prod.ext hdn.1 hdn.2)
    have hrow : (([⟨VERSION, k.1, DataLayer.get_max_file_id acc + 1, k.2, ts, none⟩] :
          List FileRow).filter (fun f => f.dir_id = d ∧ f.file_name = n)) = [] := by
      simp [hnk]
    rw [hrow, List.append_nil]
  · rw [if_neg hc]

theorem get_dir_files_markFold_not_mem (s : Store) (ts : Int) (d : Int) (n : String) :
    ∀ (ks : List (Int × String)) (acc : Store), (d, n) ∉ ks →
      DataLayer.get_dir_files (ks.foldl (DataLayer.markStep s ts) acc) d n
        = DataLayer.get_dir_files acc d n := by
  intro ks
  induction ks with
  | nil => intro acc _; rfl
  | cons k ks ih =>
    intro acc hmem
    rw [List.foldl_cons]
    have hk : k ≠ (d, n) := fun he => hmem (he ▸ List.mem_cons_self _ _)
    rw [ih _ (fun hm => hmem (List.mem_cons_of_mem _ hm)),
      get_dir_files_markStep_other s ts acc k d n hk]

theorem get_dir_files_markFold_mem (s : Store) (ts : Int) (d : Int) (n : String) :
    ∀ (ks : List (Int × String)) (acc : Store), ks.Nodup → (d, n) ∈ ks →
      (DataLayer.maxTsOf (DataLayer.get_dir_files s d n) < ts →
        ∃ tid, DataLayer.get_dir_files (ks.foldl (DataLayer.markStep s ts) acc) d n
          = DataLayer.get_dir_files acc d n ++ [⟨VERSION, d, tid, n, ts, none⟩])
    ∧ (¬ DataLayer.maxTsOf (DataLayer.get_dir_files s d n) < ts →
        DataLayer.get_dir_files (ks.foldl (DataLayer.markStep s ts) acc) d n
          = DataLayer.get_dir_files acc d n) := by
  intro ks
  induction ks with
  | nil => intro acc _ hmem; cases hmem
  | cons k ks ih =>
    intro acc hnd hmem
    rw [List.foldl_cons]
    rcases List.mem_cons.mp hmem with rfl | hmemtl
    · have hnotin : (d, n) ∉ ks := (List.nodup_cons.mp hnd).1
      constructor
      · intro hc
        refine ⟨DataLayer.get_max_file_id acc + 1, ?_⟩
        rw [get_dir_files_markFold_not_mem s ts d n ks _ hnotin,
          DataLayer.markStep, if_pos hc]
        simp only [DataLayer.get_dir_files, List.filter_append]
        have hrow : (([⟨VERSION, d, DataLayer.get_max_file_id acc + 1, n, ts, none⟩] :
              List FileRow).filter (fun f => f.dir_id = d ∧ f.file_name = n))
            = [⟨VERSION, d, DataLayer.get_max_file_id acc + 1, n, ts, none⟩] := by
          simp
        rw [hrow]
      · intro hc
        rw [get_dir_files_markFold_not_mem s ts d n ks _ hnotin,
          DataLayer.markStep, if_neg hc]
    · have hk : k ≠ (d, n) := by
        intro he
        exact (List.nodup_cons.mp hnd).1 (he ▸ hmemtl)
      have ihh := ih (DataLayer.markStep s ts acc k) (List.nodup_cons.mp hnd).2 hmemtl
      constructor
      · intro hc
        obtain ⟨tid, h⟩ := ihh.1 hc
        exact ⟨tid, by rw [h, get_dir_files_markStep_other s ts acc k d n hk]⟩
      · intro hc
        rw [ihh.2 hc, get_dir_files_markStep_other s ts acc k d n hk]

theorem mem_groupKeys_of_ne_nil (s : Store) (d : Int) (n : String)
    (h : DataLayer.get_dir_files s d n ≠ []) : (d, n) ∈ DataLayer.groupKeys s := by
  rw [DataLayer.groupKeys, List.mem_dedup]
  obtain ⟨f, hf⟩ := List.exists_mem_of_ne_nil _ h
  have hff := List.mem_filter.mp hf
  have hp := of_decide_eq_true hff.2
  have hkey : DataLayer.fileKey f = (d, n) := by
    rw [DataLayer.fileKey, hp.1, hp.2]
  exact hkey ▸ List.mem_map_of_mem DataLayer.fileKey hff.1

/-- Claim C5: after `mark_all_deleted_files(run_ts)`, every existing
`(dir_id, file_name)` group whose maximum `backup_ts` is strictly earlier than
`run_ts` has received exactly one new tombstone row (null hash) stamped
`run_ts` appended to it, and every group whose maximum `backup_ts` equals
`run_ts` (touched during this run) is completely unchanged. -/
theorem c5_deletion_sweep (s : Store) (runTs : Int) (d : Int) (n : String)
    (hne : DataLayer.get_dir_files s d n ≠ []) :
    (DataLayer.maxTsOf (DataLayer.get_dir_files s d n) < runTs →
      ∃ tid, DataLayer.get_dir_files (DataLayer.mark_all_deleted_files s runTs) d n
        = DataLayer.get_dir_files s d n ++ [⟨VERSION, d, tid, n, runTs, none⟩])
  ∧ (DataLayer.maxTsOf (DataLayer.get_dir_files s d n) = runTs →
      DataLayer.get_dir_files (DataLayer.mark_all_deleted_files s runTs) d n
        = DataLayer.get_dir_files s d n) := by
  have hmem := mem_groupKeys_of_ne_nil s d n hne
  have hnd : (DataLayer.groupKeys s).Nodup := List.nodup_dedup _
  have h := get_dir_files_markFold_mem s runTs d n (DataLayer.groupKeys s) s hnd hmem
  refine ⟨h.1, fun he => h.2 ?_⟩
  rw [he]
  exact lt_irrefl runTs

/-- Witness for c5: two groups, one stale (max ts 2 < 9), one current
(max ts 9 = 9). -/
theorem c5_witness :
    ((DataLayer.maxTsOf (DataLayer.get_dir_files
        (⟨[], [⟨1, 5, 10, "a", 2, some "x"⟩, ⟨1, 5, 11, "b", 9, some "y"⟩]⟩ : Store) 5 "a") < 9 →
      ∃ tid, DataLayer.get_dir_files (DataLayer.mark_all_deleted_files
          (⟨[], [⟨1, 5, 10, "a", 2, some "x"⟩, ⟨1, 5, 11, "b", 9, some "y"⟩]⟩ : Store) 9) 5 "a"
        = DataLayer.get_dir_files
            (⟨[], [⟨1, 5, 10, "a", 2, some "x"⟩, ⟨1, 5, 11, "b", 9, some "y"⟩]⟩ : Store) 5 "a"
          ++ [⟨VERSION, 5, tid, "a", 9, none⟩]))
  ∧ (DataLayer.get_dir_files (DataLayer.mark_all_deleted_files
        (⟨[], [⟨1, 5, 10, "a", 2, some "x"⟩, ⟨1, 5, 11, "b", 9, some "y"⟩]⟩ : Store) 9) 5 "b"
      = DataLayer.get_dir_files
          (⟨[], [⟨1, 5, 10, "a", 2, some "x"⟩, ⟨1, 5, 11, "b", 9, some "y"⟩]⟩ : Store) 5 "b") := by
  constructor
  · exact (c5_deletion_sweep
      (⟨[], [⟨1, 5, 10, "a", 2, some "x"⟩, ⟨1, 5, 11, "b", 9, some "y"⟩]⟩ : Store)
      9 5 "a" (by decide)).1
  · exact (c5_deletion_sweep
      (⟨[], [⟨1, 5, 10, "a", 2, some "x"⟩, ⟨1, 5, 11, "b", 9, some "y"⟩]⟩ : Store)
      9 5 "b" (by decide)).2 (by decide)

end DriveBackup

namespace DriveBackup

theorem foldl_max_id_spec (fs : List FileRow) :
    ∀ a : Int, a ≤ fs.foldl (fun m g => max m g.id) a
      ∧ ∀ f ∈ fs, f.id ≤ fs.foldl (fun m g => max m g.id) a := by
  induction fs with
  | nil =>
    intro a
    exact ⟨le_refl a, by intro f hf; cases hf⟩
  | cons g t ih =>
    intro a
    obtain ⟨h1, h2⟩ := ih (max a g.id)
    refine ⟨le_trans (le_max_left a g.id) h1, ?_⟩
    intro f hf
    rcases List.mem_cons.mp hf with rfl | hft
    · exact le_trans (le_max_right a f.id) h1
    · exact h2 f hft

theorem le_get_max_file_id (s : Store) :
    ∀ f ∈ s.files, f.id ≤ DataLayer.get_max_file_id s := by
  intro f hf
  rw [DataLayer.get_max_file_id]
  cases hs : s.files with
  | nil => rw [hs] at hf; cases hf
  | cons x xs =>
    rw [hs] at hf
    rcases List.mem_cons.mp hf with rfl | hft
    · exact (foldl_max_id_spec xs f.id).1
    · exact (foldl_max_id_spec xs x.id).2 f hft

theorem mem_update_latest_id (s : Store) (d : Int) (n : String) (ts : Int) :
    ∀ f ∈ (DataLayer.update_latest_hsh_ts s d n ts).files, ∃ g ∈ s.files, f.id = g.id := by
  intro f hf
  rw [DataLayer.update_latest_hsh_ts] at hf
  cases hm : DataLayer.firstMaxByTs (DataLayer.get_dir_files s d n) with
  | none =>
    rw [hm] at hf
    exact ⟨f, hf, rfl⟩
  | some r =>
    rw [hm] at hf
    obtain ⟨g, hg, hfg⟩ := List.mem_map.mp hf
    refine ⟨g, hg, ?_⟩
    rw [← hfg]
    by_cases hgid : g.id = r.id
    · rw [if_pos hgid]
    · rw [if_neg hgid]

theorem get_file_status_spec (svc : FileHistoryService) (s : Store) (path : List String)
    (hsh : String) (ts : Int) (st : FileStatus) (svc' : FileHistoryService) (s' : Store)
    (h : FileHistoryService.get_file_status svc s path hsh ts = some (st, svc', s')) :
    (∀ f ∈ s'.files, ∃ g ∈ s.files, f.id = g.id)
  ∧ ((st = FileStatus.DoesNotNeedBackup ∧ svc' = svc)
     ∨ (∃ d n, st = FileStatus.NeedsBackup d svc.next_file_id n
         ∧ svc' = { svc with next_file_id := svc.next_file_id + 1 }
         ∧ s'.files = s.files)) := by
  rw [FileHistoryService.get_file_status] at h
  cases hlast : path.getLast? with
  | none => rw [hlast] at h; cases h
  | some file_name =>
    simp only [hlast] at h
    cases ht : (FileHistoryService.traverse_to_subdir s path true).1 with
    | none => simp only [ht] at h; cases h
    | some sub_dir_id =>
      simp only [ht] at h
      have hfiles : ((FileHistoryService.traverse_to_subdir s path true).2).files = s.files :=
        traverse_files s path true
      cases hlh : (DataLayer.get_latest_file
          (FileHistoryService.traverse_to_subdir s path true).2 sub_dir_id file_name).bind
          (fun f => f.hsh) with
      | none =>
        simp only [hlh, Option.some.injEq, Prod.mk.injEq] at h
        obtain ⟨hst, hsvc, hs⟩ := h
        refine ⟨?_, Or.inr ⟨sub_dir_id, file_name, hst.symm, hsvc.symm, by rw [← hs, hfiles]⟩⟩
        intro f hf
        rw [← hs, hfiles] at hf
        exact ⟨f, hf, rfl⟩
      | some lh =>
        simp only [hlh] at h
        by_cases heq : lh = hsh
        · rw [if_pos heq] at h
          simp only [Option.some.injEq, Prod.mk.injEq] at h
          obtain ⟨hst, hsvc, hs⟩ := h
          refine ⟨?_, Or.inl ⟨hst.symm, hsvc.symm⟩⟩
          intro f hf
          rw [← hs] at hf
          obtain ⟨g, hg, hfg⟩ := mem_update_latest_id _ _ _ _ f hf
          rw [hfiles] at hg
          exact ⟨g, hg, hfg⟩
        · rw [if_neg heq] at h
          simp only [Option.some.injEq, Prod.mk.injEq] at h
          obtain ⟨hst, hsvc, hs⟩ := h
          refine ⟨?_, Or.inr ⟨sub_dir_id, file_name, hst.symm, hsvc.symm, by rw [← hs, hfiles]⟩⟩
          intro f hf
          rw [← hs, hfiles] at hf
          exact ⟨f, hf, rfl⟩

end DriveBackup

namespace DriveBackup

theorem create_file_entry_files_subset (mc : Int) (s : Store) (d fid : Int)
    (n hsh : String) (ts : Int) :
    ∀ f ∈ ((FileHistoryService.create_file_entry mc s d fid n hsh ts).2).files,
      f ∈ s.files ∨ f.id = fid := by
  intro f hf
  have hsub : f ∈ (DataLayer.create_file_entry s d fid n hsh ts).files := by
    rw [FileHistoryService.create_file_entry] at hf
    by_cases hc : ((DataLayer.get_dir_files
        (DataLayer.create_file_entry s d fid n hsh ts) d n).length : Int) > mc
    · rw [if_pos hc] at hf
      cases hm : FileHistoryService.minByTs
          (DataLayer.get_dir_files (DataLayer.create_file_entry s d fid n hsh ts) d n) with
      | none => simp only [hm] at hf; exact hf
      | some m =>
        simp only [hm] at hf
        exact List.mem_of_mem_filter hf
    · rw [if_neg hc] at hf
      exact hf
  rw [DataLayer.create_file_entry] at hsub
  rcases List.mem_append.mp hsub with hin | hone
  · exact Or.inl hin
  · right
    rw [List.mem_singleton.mp hone]

theorem runStep_spec (svc : FileHistoryService) (s : Store) (inp : RunInput)
    (svc2 : FileHistoryService) (s2 : Store) (fid? : Option Int)
    (h : runStep (svc, s) inp = some (svc2, s2, fid?))
    (hinv : ∀ f ∈ s.files, f.id < svc.next_file_id) :
    (∀ f ∈ s2.files, f.id < svc2.next_file_id)
  ∧ ((fid? = none ∧ svc2.next_file_id = svc.next_file_id)
     ∨ (fid? = some svc.next_file_id ∧ svc2.next_file_id = svc.next_file_id + 1)) := by
  rw [runStep] at h
  cases hgs : FileHistoryService.get_file_status svc s inp.1 inp.2.1 inp.2.2 with
  | none => rw [hgs] at h; cases h
  | some trip =>
    obtain ⟨st, svcA, sA⟩ := trip
    obtain ⟨hids, hcase⟩ := get_file_status_spec svc s inp.1 inp.2.1 inp.2.2 st svcA sA hgs
    cases st with
    | DoesNotNeedBackup =>
      simp only [hgs, Option.some.injEq, Prod.mk.injEq] at h
      obtain ⟨h1, h2, h3⟩ := h
      rcases hcase with ⟨_, hsvc⟩ | ⟨d, n, hst, _, _⟩
      · constructor
        · intro f hf
          rw [← h2] at hf
          obtain ⟨g, hg, hfg⟩ := hids f hf
          rw [← h1, hsvc, hfg]
          exact hinv g hg
        · exact Or.inl ⟨h3.symm, by rw [← h1, hsvc]⟩
      · exact absurd hst (by simp)
    | NeedsBackup d0 fid0 n0 =>
      simp only [hgs, Option.some.injEq, Prod.mk.injEq] at h
      obtain ⟨h1, h2, h3⟩ := h
      rcases hcase with ⟨hst, _⟩ | ⟨d, n, hst, hsvc, hsfiles⟩
      · exact absurd hst (by simp)
      · injection hst with hd hfid hn
        constructor
        · intro f hf
          rw [← h2] at hf
          have hsubset := create_file_entry_files_subset svcA.max_copies sA d0 fid0 n0
            inp.2.1 inp.2.2 f hf
          rw [← h1, hsvc]
          show f.id < svc.next_file_id + 1
          rcases hsubset with hin | hfid2
          · rw [hsfiles] at hin
            have := hinv f hin
            omega
          · rw [hfid2, hfid]
            omega
        · right
          refine ⟨?_, ?_⟩
          · rw [← h3, hfid]
          · rw [← h1, hsvc]

end DriveBackup

namespace DriveBackup

theorem runTrace_spec (inputs : List RunInput) :
    ∀ (svc : FileHistoryService) (s : Store) (allocs : List Int)
      (svc' : FileHistoryService) (s' : Store) (allocs' : List Int),
      runTrace inputs (svc, s, allocs) = some (svc', s', allocs') →
      (∀ f ∈ s.files, f.id < svc.next_file_id) →
      ∃ na, allocs' = allocs ++ na
        ∧ na = (List.range na.length).map (fun i : Nat => svc.next_file_id + (i : Int))
        ∧ svc'.next_file_id = svc.next_file_id + (na.length : Int)
        ∧ (∀ f ∈ s'.files, f.id < svc'.next_file_id) := by
  induction inputs with
  | nil =>
    intro svc s allocs svc' s' allocs' h hinv
    rw [runTrace] at h
    simp only [Option.some.injEq, Prod.mk.injEq] at h
    obtain ⟨h1, h2, h3⟩ := h
    refine ⟨[], by rw [← h3, List.append_nil], by simp, by rw [← h1]; simp, ?_⟩
    intro f hf
    rw [← h2] at hf
    rw [← h1]
    exact hinv f hf
  | cons inp rest ih =>
    intro svc s allocs svc' s' allocs' h hinv
    rw [runTrace] at h
    cases hstep : runStep (svc, s) inp with
    | none => rw [hstep] at h; cases h
    | some trip =>
      obtain ⟨svc2, s2, fid?⟩ := trip
      simp only [hstep] at h
      obtain ⟨hinv2, hcase⟩ := runStep_spec svc s inp svc2 s2 fid? hstep hinv
      obtain ⟨na2, ha1, ha2, ha3, hinv3⟩ := ih svc2 s2 (allocs ++ fid?.toList) svc' s' allocs' h hinv2
      rcases hcase with ⟨hfnone, hnext⟩ | ⟨hfsome, hnext⟩
      · refine ⟨na2, ?_, ?_, ?_, hinv3⟩
        · rw [ha1, hfnone]
          simp
        · rw [← hnext]
          exact ha2
        · rw [ha3, hnext]
      · refine ⟨svc.next_file_id :: na2, ?_, ?_, ?_, hinv3⟩
        · rw [ha1, hfsome]
          simp
        · have htail : List.map (fun i : Nat => svc.next_file_id + (i : Int))
              (List.map Nat.succ (List.range na2.length)) = na2 := by
            conv_rhs => rw [ha2, hnext]
            rw [List.map_map]
            apply List.map_congr_left
            intro i _
            simp only [Function.comp]
            push_cast
            ring
          rw [List.length_cons, List.range_succ_eq_map, List.map_cons, htail]
          norm_num
        · rw [ha3, hnext, List.length_cons]
          push_cast
          ring

end DriveBackup

namespace DriveBackup

/-- Claim C7: the service counter is seeded at construction as
`max(existing id) + 1`, strictly above every id in the store; over any run of
the driving loop the `NeedsBackup` file ids form the consecutive, strictly
increasing sequence `seed, seed + 1, ...` (each one therefore strictly greater
than every previously allocated id and than every id in the initial store),
the counter equals `seed + number of allocations`, and every id in the
resulting store stays below the counter. -/
theorem c7_ids_monotonic (s0 : Store) (mc : Int) (inputs : List RunInput)
    (svc : FileHistoryService) (s : Store) (allocs : List Int)
    (h : runTrace inputs (FileHistoryService.new s0 mc, s0, []) = some (svc, s, allocs)) :
    (FileHistoryService.new s0 mc).next_file_id = DataLayer.get_max_file_id s0 + 1
  ∧ (∀ f ∈ s0.files, f.id < (FileHistoryService.new s0 mc).next_file_id)
  ∧ allocs = (List.range allocs.length).map
      (fun i : Nat => DataLayer.get_max_file_id s0 + 1 + (i : Int))
  ∧ List.Pairwise (fun a b => a < b) allocs
  ∧ svc.next_file_id = DataLayer.get_max_file_id s0 + 1 + (allocs.length : Int)
  ∧ (∀ f ∈ s.files, f.id < svc.next_file_id)
  ∧ (∀ a ∈ allocs, ∀ f ∈ s0.files, f.id < a) := by
  have hseed0 : (FileHistoryService.new s0 mc).next_file_id
      = DataLayer.get_max_file_id s0 + 1 := rfl
  have hseed : ∀ f ∈ s0.files, f.id < (FileHistoryService.new s0 mc).next_file_id := by
    intro f hf
    have := le_get_max_file_id s0 f hf
    rw [hseed0]
    omega
  obtain ⟨na, ha1, ha2, ha3, hinv⟩ := runTrace_spec inputs _ s0 [] svc s allocs h hseed
  have hna : allocs = na := by rw [ha1]; simp
  obtain rfl := hna
  rw [hseed0] at ha2 ha3
  refine ⟨hseed0, hseed, ha2, ?_, ha3, hinv, ?_⟩
  · rw [ha2, List.pairwise_map]
    refine List.Pairwise.imp ?_ (List.pairwise_lt_range allocs.length)
    intro a b hab
    omega
  · intro a ha f hf
    rw [ha2] at ha
    obtain ⟨i, _, rfl⟩ := List.mem_map.mp ha
    have := le_get_max_file_id s0 f hf
    omega

/-- Witness for c7: empty store, max_copies 2, one input file; the single
allocation is id 1 = max(0) + 1. -/
theorem c7_witness :
    (FileHistoryService.new (⟨[], []⟩ : Store) 2).next_file_id
        = DataLayer.get_max_file_id (⟨[], []⟩ : Store) + 1
  ∧ (∀ f ∈ (⟨[], []⟩ : Store).files,
      f.id < (FileHistoryService.new (⟨[], []⟩ : Store) 2).next_file_id)
  ∧ ([1] : List Int) = (List.range ([1] : List Int).length).map
      (fun i : Nat => DataLayer.get_max_file_id (⟨[], []⟩ : Store) + 1 + (i : Int))
  ∧ List.Pairwise (fun a b => a < b) ([1] : List Int)
  ∧ (⟨2, 2⟩ : FileHistoryService).next_file_id
      = DataLayer.get_max_file_id (⟨[], []⟩ : Store) + 1 + (([1] : List Int).length : Int)
  ∧ (∀ f ∈ (⟨[⟨1, none, "/"⟩], [⟨1, 1, 1, "f.txt", 3, some "h"⟩]⟩ : Store).files,
      f.id < (⟨2, 2⟩ : FileHistoryService).next_file_id)
  ∧ (∀ a ∈ ([1] : List Int), ∀ f ∈ (⟨[], []⟩ : Store).files, f.id < a) :=
  c7_ids_monotonic ⟨[], []⟩ 2 [(["/", "f.txt"], "h", 3)] ⟨2, 2⟩
    ⟨[⟨1, none, "/"⟩], [⟨1, 1, 1, "f.txt", 3, some "h"⟩]⟩ [1] (by decide)

end DriveBackup

namespace DriveBackup
open FileHistoryService

theorem traverseLoop_dirs_prefix (rest : List String) :
    ∀ (s : Store) (cur : Option Int) (c : Bool),
      ∃ t, ((traverseLoop s cur rest c).2).dirs = s.dirs ++ t := by
  induction rest with
  | nil => intro s cur c; exact ⟨[], by rw [traverseLoop_nil]; simp⟩
  | cons sub rest ih =>
    intro s cur c
    cases cur with
    | none => exact ⟨[], by rw [traverseLoop_none]; simp⟩
    | some d =>
      by_cases hre : rest.isEmpty
      · exact ⟨[], by rw [traverseLoop, if_pos hre]; simp⟩
      · cases hfind : ((DataLayer.get_sub_dirs s d).filter
            (fun x => x.dir_name = sub)).head?.map (fun x => x.id) with
        | some fid =>
          obtain ⟨t, ht⟩ := ih s (some fid) c
          exact ⟨t, by rw [traverseLoop_cons_found s d sub rest c fid hre hfind]; exact ht⟩
        | none =>
          cases c with
          | false =>
            refine ⟨[], ?_⟩
            rw [traverseLoop, if_neg hre, hfind]
            simp only [Bool.false_eq_true, if_false]
            rw [traverseLoop_none]
            simp
          | true =>
            obtain ⟨t, ht⟩ := ih (DataLayer.create_dir s sub (some d)).2
              (some (DataLayer.create_dir s sub (some d)).1) true
            refine ⟨⟨DataLayer.maxDirId s + 1, some d, sub⟩ :: t, ?_⟩
            rw [traverseLoop_cons_create s d sub rest hre hfind, ht]
            simp [DataLayer.create_dir]

theorem lookup_sub_append (s s2 : Store) (t : List DirModel) (d : Int) (sub : String)
    (hdirs : s2.dirs = s.dirs ++ t) (x : DirModel)
    (hfound : ((DataLayer.get_sub_dirs s d).filter (fun y => y.dir_name = sub)).head?
        = some x) :
    ((DataLayer.get_sub_dirs s2 d).filter (fun y => y.dir_name = sub)).head? = some x := by
  rw [DataLayer.get_sub_dirs] at hfound ⊢
  rw [hdirs, List.filter_append, List.filter_append, List.head?_append, hfound]
  rfl

theorem lookup_sub_create (s s2 : Store) (t : List DirModel) (d nid : Int) (sub : String)
    (hnone : ((DataLayer.get_sub_dirs s d).filter (fun y => y.dir_name = sub)).head? = none)
    (hdirs : s2.dirs = s.dirs ++ [⟨nid, some d, sub⟩] ++ t) :
    ((DataLayer.get_sub_dirs s2 d).filter (fun y => y.dir_name = sub)).head?
      = some ⟨nid, some d, sub⟩ := by
  rw [DataLayer.get_sub_dirs] at hnone ⊢
  have h0 : ((s.dirs.filter (fun y => y.parent_dir_id = some d)).filter
      (fun y => y.dir_name = sub)) = [] := List.head?_eq_none_iff.mp hnone
  rw [hdirs, List.filter_append, List.filter_append, List.filter_append,
    List.filter_append, h0]
  simp

end DriveBackup

namespace DriveBackup
open FileHistoryService

theorem traverseLoop_idem (rest : List String) :
    ∀ (s : Store) (d : Int),
      traverseLoop (traverseLoop s (some d) rest true).2 (some d) rest true
        = traverseLoop s (some d) rest true := by
  induction rest with
  | nil =>
    intro s d
    rw [traverseLoop_nil, traverseLoop_nil]
  | cons sub rest ih =>
    intro s d
    by_cases hre : rest.isEmpty
    · have h1 : traverseLoop s (some d) (sub :: rest) true = (some d, s) := by
        rw [traverseLoop, if_pos hre]
      rw [h1, h1]
    · cases hfind : ((DataLayer.get_sub_dirs s d).filter
          (fun y => y.dir_name = sub)).head? with
      | some m =>
        have hmap : ((DataLayer.get_sub_dirs s d).filter
            (fun y => y.dir_name = sub)).head?.map (fun x => x.id) = some m.id := by
          rw [hfind]
          rfl
        have h1 : traverseLoop s (some d) (sub :: rest) true
            = traverseLoop s (some m.id) rest true :=
          traverseLoop_cons_found s d sub rest true m.id hre hmap
        obtain ⟨t, ht⟩ := traverseLoop_dirs_prefix rest s (some m.id) true
        have hm2 : ((DataLayer.get_sub_dirs
            (traverseLoop s (some m.id) rest true).2 d).filter
            (fun y => y.dir_name = sub)).head? = some m :=
          lookup_sub_append s _ t d sub ht m hfind
        have hmap2 : ((DataLayer.get_sub_dirs
            (traverseLoop s (some m.id) rest true).2 d).filter
            (fun y => y.dir_name = sub)).head?.map (fun x => x.id) = some m.id := by
          rw [hm2]
          rfl
        have h2 : traverseLoop (traverseLoop s (some m.id) rest true).2 (some d)
              (sub :: rest) true
            = traverseLoop (traverseLoop s (some m.id) rest true).2 (some m.id) rest true :=
          traverseLoop_cons_found _ d sub rest true m.id hre hmap2
        rw [h1, h2, ih]
      | none =>
        have hmap : ((DataLayer.get_sub_dirs s d).filter
            (fun y => y.dir_name = sub)).head?.map (fun x => x.id) = none := by
          rw [hfind]
          rfl
        have h1 : traverseLoop s (some d) (sub :: rest) true
            = traverseLoop (DataLayer.create_dir s sub (some d)).2
                (some (DataLayer.create_dir s sub (some d)).1) rest true :=
          traverseLoop_cons_create s d sub rest hre hmap
        obtain ⟨t, ht⟩ := traverseLoop_dirs_prefix rest
          (DataLayer.create_dir s sub (some d)).2
          (some (DataLayer.create_dir s sub (some d)).1) true
        have hdirs : ((traverseLoop (DataLayer.create_dir s sub (some d)).2
            (some (DataLayer.create_dir s sub (some d)).1) rest true).2).dirs
            = s.dirs ++ [⟨DataLayer.maxDirId s + 1, some d, sub⟩] ++ t := by
          rw [ht]
          simp [DataLayer.create_dir]
        have hm2 : ((DataLayer.get_sub_dirs
            (traverseLoop (DataLayer.create_dir s sub (some d)).2
              (some (DataLayer.create_dir s sub (some d)).1) rest true).2 d).filter
            (fun y => y.dir_name = sub)).head?
            = some ⟨DataLayer.maxDirId s + 1, some d, sub⟩ :=
          lookup_sub_create s _ t d (DataLayer.maxDirId s + 1) sub hfind hdirs
        have hmap2 : ((DataLayer.get_sub_dirs
            (traverseLoop (DataLayer.create_dir s sub (some d)).2
              (some (DataLayer.create_dir s sub (some d)).1) rest true).2 d).filter
            (fun y => y.dir_name = sub)).head?.map (fun x => x.id)
            = some (DataLayer.maxDirId s + 1) := by
          rw [hm2]
          rfl
        have h2 : traverseLoop (traverseLoop (DataLayer.create_dir s sub (some d)).2
              (some (DataLayer.create_dir s sub (some d)).1) rest true).2 (some d)
              (sub :: rest) true
            = traverseLoop (traverseLoop (DataLayer.create_dir s sub (some d)).2
                (some (DataLayer.create_dir s sub (some d)).1) rest true).2
                (some (DataLayer.maxDirId s + 1)) rest true :=
          traverseLoop_cons_found _ d sub rest true (DataLayer.maxDirId s + 1) hre hmap2
        rw [h1, h2]
        exact ih (DataLayer.create_dir s sub (some d)).2 (DataLayer.maxDirId s + 1)

end DriveBackup

namespace DriveBackup
open FileHistoryService

theorem traverse_idem (s : Store) (path : List String) :
    traverse_to_subdir (traverse_to_subdir s path true).2 path true
      = traverse_to_subdir s path true := by
  cases path with
  | nil => rfl
  | cons root rest =>
    cases hg : DataLayer.get_dir s root with
    | some g =>
      have hmap : (DataLayer.get_dir s root).map (fun x => x.id) = some g.id := by
        rw [hg]
        rfl
      have h1 := traverse_cons_found s root rest true g.id hmap
      obtain ⟨t, ht⟩ := traverseLoop_dirs_prefix rest s (some g.id) true
      have hg2 : DataLayer.get_dir (traverseLoop s (some g.id) rest true).2 root = some g := by
        rw [DataLayer.get_dir] at hg ⊢
        rw [ht, List.find?_append, hg]
        rfl
      have hmap2 : (DataLayer.get_dir (traverseLoop s (some g.id) rest true).2 root).map
          (fun x => x.id) = some g.id := by
        rw [hg2]
        rfl
      have h2 := traverse_cons_found (traverseLoop s (some g.id) rest true).2 root rest
        true g.id hmap2
      rw [h1, h2]
      exact traverseLoop_idem rest s g.id
    | none =>
      have hmap : (DataLayer.get_dir s root).map (fun x => x.id) = none := by
        rw [hg]
        rfl
      have h1 := traverse_cons_create s root rest hmap
      obtain ⟨t, ht⟩ := traverseLoop_dirs_prefix rest
        (DataLayer.create_dir s root none).2 (some (DataLayer.create_dir s root none).1) true
      have hdirs : ((traverseLoop (DataLayer.create_dir s root none).2
          (some (DataLayer.create_dir s root none).1) rest true).2).dirs
          = s.dirs ++ [⟨DataLayer.maxDirId s + 1, none, root⟩] ++ t := by
        rw [ht]
        simp [DataLayer.create_dir]
      have hg2 : DataLayer.get_dir (traverseLoop (DataLayer.create_dir s root none).2
          (some (DataLayer.create_dir s root none).1) rest true).2 root
          = some ⟨DataLayer.maxDirId s + 1, none, root⟩ := by
        rw [DataLayer.get_dir] at hg ⊢
        rw [hdirs, List.find?_append, List.find?_append, hg]
        simp
      have hmap2 : (DataLayer.get_dir (traverseLoop (DataLayer.create_dir s root none).2
          (some (DataLayer.create_dir s root none).1) rest true).2 root).map
          (fun x => x.id) = some (DataLayer.maxDirId s + 1) := by
        rw [hg2]
        rfl
      have h2 := traverse_cons_found (traverseLoop (DataLayer.create_dir s root none).2
          (some (DataLayer.create_dir s root none).1) rest true).2 root rest
        true (DataLayer.maxDirId s + 1) hmap2
      rw [h1, h2]
      exact traverseLoop_idem rest (DataLayer.create_dir s root none).2
        (DataLayer.maxDirId s + 1)

theorem traverseLoop_dirKey_nodup (rest : List String) :
    ∀ (s : Store) (cur : Option Int),
      (s.dirs.map dirKey).Nodup →
      ((((traverseLoop s cur rest true).2).dirs.map dirKey).Nodup) := by
  induction rest with
  | nil =>
    intro s cur h
    rw [traverseLoop_nil]
    exact h
  | cons sub rest ih =>
    intro s cur h
    cases cur with
    | none =>
      rw [traverseLoop_none]
      exact h
    | some d =>
      by_cases hre : rest.isEmpty
      · rw [traverseLoop, if_pos hre]
        exact h
      · cases hfind : ((DataLayer.get_sub_dirs s d).filter
            (fun x => x.dir_name = sub)).head?.map (fun x => x.id) with
        | some fid =>
          rw [traverseLoop_cons_found s d sub rest true fid hre hfind]
          exact ih s (some fid) h
        | none =>
          rw [traverseLoop_cons_create s d sub rest hre hfind]
          apply ih
          have hnone : ((DataLayer.get_sub_dirs s d).filter
              (fun x => x.dir_name = sub)).head? = none := Option.map_eq_none'.mp hfind
          have hempty : ((DataLayer.get_sub_dirs s d).filter
              (fun x => x.dir_name = sub)) = [] := List.head?_eq_none_iff.mp hnone
          have hno : ∀ x ∈ s.dirs, ¬(x.parent_dir_id = some d ∧ x.dir_name = sub) := by
            intro x hx hcon
            have hx1 : x ∈ DataLayer.get_sub_dirs s d := by
              rw [DataLayer.get_sub_dirs, List.mem_filter]
              exact ⟨hx, by simp [hcon.1]⟩
            have hx2 : x ∈ ((DataLayer.get_sub_dirs s d).filter
                (fun y => y.dir_name = sub)) := by
              rw [List.mem_filter]
              exact ⟨hx1, by simp [hcon.2]⟩
            rw [hempty] at hx2
            cases hx2
          show ((((DataLayer.create_dir s sub (some d)).2).dirs.map dirKey).Nodup)
          rw [DataLayer.create_dir]
          simp only [List.map_append, List.nodup_append]
          refine ⟨h, by simp, ?_⟩
          intro k hk hk2
          simp only [List.map_cons, List.map_nil, List.mem_singleton] at hk2
          obtain ⟨x, hx, hkx⟩ := List.mem_map.mp hk
          rw [hk2] at hkx
          rw [dirKey] at hkx
          have : x.parent_dir_id = some d ∧ x.dir_name = sub := by
            constructor
            · exact congrArg Prod.fst hkx
            · exact congrArg Prod.snd hkx
          exact hno x hx this

theorem traverse_dirKey_nodup (s : Store) (path : List String)
    (h : (s.dirs.map dirKey).Nodup) :
    ((((traverse_to_subdir s path true).2).dirs.map dirKey).Nodup) := by
  cases path with
  | nil => exact h
  | cons root rest =>
    cases hg : DataLayer.get_dir s root with
    | some g =>
      have hmap : (DataLayer.get_dir s root).map (fun x => x.id) = some g.id := by
        rw [hg]
        rfl
      rw [traverse_cons_found s root rest true g.id hmap]
      exact traverseLoop_dirKey_nodup rest s (some g.id) h
    | none =>
      have hmap : (DataLayer.get_dir s root).map (fun x => x.id) = none := by
        rw [hg]
        rfl
      rw [traverse_cons_create s root rest hmap]
      apply traverseLoop_dirKey_nodup
      have hno : ∀ x ∈ s.dirs, x.dir_name ≠ root := by
        intro x hx hcon
        rw [DataLayer.get_dir] at hg
        have := List.find?_eq_none.mp hg x hx
        simp [hcon] at this
      show ((((DataLayer.create_dir s root none).2).dirs.map dirKey).Nodup)
      rw [DataLayer.create_dir]
      simp only [List.map_append, List.nodup_append]
      refine ⟨h, by simp, ?_⟩
      intro k hk hk2
      simp only [List.map_cons, List.map_nil, List.mem_singleton] at hk2
      obtain ⟨x, hx, hkx⟩ := List.mem_map.mp hk
      rw [hk2] at hkx
      rw [dirKey] at hkx
      exact hno x hx (congrArg Prod.snd hkx)

/-- Claim C8: directory resolution with creation enabled is idempotent —
re-resolving the same path from the state the first resolution produced
returns the same directory id and leaves the store unchanged (so no second
DirectoryNode is ever created for the same `(parent_id, name)`) — and it
preserves the invariant that no two DirectoryNodes share `(parent_id, name)`
(lookups are get-or-create: a child is created only when absent), assuming
calls are serialized (the embedding is sequential). -/
theorem c8_idempotent_resolution (s : Store) (path : List String)
    (h : (s.dirs.map dirKey).Nodup) :
    traverse_to_subdir (traverse_to_subdir s path true).2 path true
      = traverse_to_subdir s path true
  ∧ ((((traverse_to_subdir s path true).2).dirs.map dirKey).Nodup) :=
  ⟨traverse_idem s path, traverse_dirKey_nodup s path h⟩

/-- Witness for c8: the spec's concrete scenario, resolving
"/data/photos/img.jpg" twice from an empty store. -/
theorem c8_witness :
    traverse_to_subdir
        (traverse_to_subdir (⟨[], []⟩ : Store) ["/", "data", "photos", "img.jpg"] true).2
        ["/", "data", "photos", "img.jpg"] true
      = traverse_to_subdir (⟨[], []⟩ : Store) ["/", "data", "photos", "img.jpg"] true
  ∧ ((((traverse_to_subdir (⟨[], []⟩ : Store)
        ["/", "data", "photos", "img.jpg"] true).2).dirs.map dirKey).Nodup) :=
  c8_idempotent_resolution ⟨[], []⟩ ["/", "data", "photos", "img.jpg"] (by decide)

end DriveBackup
